import Mathlib

/-!
Shallow embedding of the dingo sampling/correction pipeline
(`dingo/gw/inference/gw_samplers.py` and
`dingo/gw/waveform_generator/waveform_generator.py`).

Numbers are modelled by an arbitrary linear ordered field `K` (instantiated
at `ℚ` for concrete evaluations, with `ℝ` and `π` being the intended reading);
the constant `2 * np.pi` of the source is represented by `2 * pi` for a
parameter `pi : K`.  Floating-point values that may be `-inf` (log-priors,
log-probs) are modelled by `FVal K`.  External collaborators (bilby prior,
astropy sidereal time, the likelihood, the KDE sampler, lalsimulation) are
modelled as function parameters, exactly at the call boundaries of the source.
-/

namespace Dingo

/-- A float that is either `-inf` or a finite value, as produced by
`prior.ln_prob` / stored in the `log_prob` column. -/
inductive FVal (K : Type) where
  | ninf : FVal K
  | fin : K → FVal K
deriving DecidableEq

/-- Float addition restricted to `{-inf} ∪ K`: adding `-inf` gives `-inf`
(mirrors IEEE semantics for the values that occur in the sampler). -/
def FVal.add {K : Type} [Add K] : FVal K → FVal K → FVal K
  | .ninf, _ => .ninf
  | _, .ninf => .ninf
  | .fin a, .fin b => .fin (a + b)

/-- Model of `v != -inf` as evaluated by numpy on a float column. -/
def FVal.isFin {K : Type} : FVal K → Bool
  | .ninf => false
  | .fin _ => true

/-- Python exception kinds raised by the modelled code paths. -/
inductive PyErr where
  | valueError
  | keyError
deriving DecidableEq

variable {K : Type} [LinearOrderedField K]

/-- Model of `np.linspace(a, b, n)` with the default `endpoint=True`: `n` evenly spaced
points from `a` to `b` INCLUSIVE (for `n ≥ 2` the step is `(b-a)/(n-1)`). -/
def linspace (a b : K) (n : ℕ) : List K :=
  if n = 0 then []
  else if n = 1 then [a]
  else (List.range n).map (fun i => a + (b - a) * i / (n - 1))

/-- Truthiness of a numpy boolean array, as used by `if cond:`/builtin `max`:
a single element converts to its value, any other size raises `ValueError`
("truth value of an array ... is ambiguous"). -/
def npTruthy : List Bool → Except PyErr Bool
  | [b] => .ok b
  | _ => .error .valueError

/-- Elementwise `xs > ys` on two numpy arrays of the same length. -/
def listGT (xs ys : List K) : List Bool :=
  (xs.zip ys).map (fun p => decide (p.2 < p.1))

/-- Iteration of Python's BUILTIN `max` over the remaining rows of a 2-D
float array, as in `max(phase_log_posterior)` (gw_samplers.py line 285):
each candidate row is compared to the running maximum with `>`; the
comparison yields a boolean array whose truthiness raises `ValueError`
whenever the rows have length ≠ 1. -/
def pyMaxGo (cur : List K) : List (List K) → Except PyErr (List K)
  | [] => .ok cur
  | row :: rest =>
    match npTruthy (listGT row cur) with
    | .error e => .error e
    | .ok b => pyMaxGo (if b then row else cur) rest

/-- Python's BUILTIN `max` applied to a 2-D float array: `max()` of an empty
sequence raises `ValueError`, otherwise the first row seeds the running
maximum of `pyMaxGo`. -/
def pyMax : List (List K) → Except PyErr (List K)
  | [] => .error .valueError
  | r :: rs => pyMaxGo r rs

/-- Real part of the product of two complex numbers given as (re, im) pairs;
used for `np.outer(d_inner_h_complex, phasor).real`. -/
def cmulRe (a b : K × K) : K := a.1 * b.1 - a.2 * b.2

/-- Python float `x % m` (also numpy `%`): `x - m * ⌊x / m⌋`; for `m > 0` the
result lies in `[0, m)`. -/
def fmod [FloorRing K] (x m : K) : K := x - m * ⌊x / m⌋

/-- The run-supplied event metadata (`self.event_metadata`); the only key read
by `_post_correct_for_tref` is `"time_event"`, which may be missing. -/
structure EventMetadata (K : Type) where
  timeEvent : Option K
deriving DecidableEq

/-- A samples batch as seen by `_post_correct_for_tref`: the `ra` column, all
remaining parameter columns (by name), and the `log_prob` column. -/
structure GWSamples (K : Type) where
  ra : List K
  otherColumns : List (String × List K)
  logProb : List (FVal K)
deriving DecidableEq

/-- Model of `GWSamplerMixin._post_correct_for_tref` (gw_samplers.py lines 170-206).
`longitude t` models `Time(t, format="gps", scale="utc").sidereal_time(
"apparent", "greenwich")` in radians (a deterministic external function of the
GPS time); `ra_correction = longitude t_event - longitude t_ref`.  The samples
are returned unchanged unless event metadata with a `time_event ≠ t_ref` is
present, in which case only the `ra` column is rewritten to
`(ra ± ra_correction) % (2π)`. -/
def postCorrectForTref [FloorRing K] (pi : K) (longitude : K → K) (tRef : K)
    (eventMetadata : Option (EventMetadata K)) (inverse : Bool)
    (s : GWSamples K) : GWSamples K :=
  match eventMetadata with
  | none => s
  | some m =>
    match m.timeEvent with
    | none => s
    | some tEvent =>
      if tEvent = tRef then s
      else
        let raCorrection := longitude tEvent - longitude tRef
        { s with
          ra := s.ra.map (fun r =>
            if inverse then fmod (r - raCorrection) (2 * pi)
            else fmod (r + raCorrection) (2 * pi)) }

/-- The sampler's stored phase prior (`self.phase_prior`): either a bilby
`Uniform(minimum, maximum)` instance, or anything else (another prior class,
or `None` when the model is not phase-marginalized); only this distinction is
read by `isinstance(self.phase_prior, Uniform) and
(self.phase_prior._minimum, self.phase_prior._maximum) == (0, 2 * np.pi)`. -/
inductive PhasePrior (K : Type) where
  | uniform (minimum maximum : K)
  | other
deriving DecidableEq

/-- The phase-prior validation of `_sample_synthetic_phase`
(gw_samplers.py lines 247-251). -/
def phasePriorOk (pi : K) : PhasePrior K → Bool
  | .uniform mn mx => decide (mn = 0) && decide (mx = 2 * pi)
  | .other => false

/-- A samples batch as seen by `_sample_synthetic_phase`: opaque parameter
rows `theta` (every column except `log_prob`, of some row type `Θ`), the
`log_prob` column, and the `phase` column once it has been added. -/
structure SynSamples (Θ K : Type) where
  theta : List Θ
  phase : Option (List K)
  logProb : List (FVal K)
deriving DecidableEq

/-- Model of `log_prior = self.prior.ln_prob(theta); np.putmask(log_prior,
constraints == 0, -np.inf)` (gw_samplers.py lines 261-263), per row. -/
def maskedLogPrior {Θ : Type} (lnProb : Θ → FVal K) (constraints : Θ → K)
    (θs : List Θ) : List (FVal K) :=
  θs.map (fun t => if constraints t = 0 then FVal.ninf else lnProb t)

/-- Model of `within_prior = log_prior != -np.inf` (line 264), as a boolean mask. -/
def withinMask {Θ : Type} (lnProb : Θ → FVal K) (constraints : Θ → K)
    (θs : List Θ) : List Bool :=
  (maskedLogPrior lnProb constraints θs).map FVal.isFin

/-- Boolean-mask row selection `theta.iloc[within_prior]`. -/
def selectRows {Θ : Type} (θs : List Θ) (mask : List Bool) : List Θ :=
  (θs.zip mask).filterMap (fun p => if p.2 then some p.1 else none)

/-- The rows of the batch on which the likelihood is evaluated. -/
def withinRows {Θ : Type} (lnProb : Θ → FVal K) (constraints : Θ → K)
    (θs : List Θ) : List Θ :=
  selectRows θs (withinMask lnProb constraints θs)

/-- Model of `arr = np.full(n, d); arr[mask] = vals` — scatter the values `v 0, v 1, …`
into the `true` positions of the mask, default `d` elsewhere (`j` counts the
`true` positions already consumed). -/
def scatterGo {α : Type} (d : α) (v : ℕ → α) : List Bool → ℕ → List α
  | [], _ => []
  | true :: rest, j => v j :: scatterGo d v rest (j + 1)
  | false :: rest, j => d :: scatterGo d v rest j

/-- Masked assignment into an array initialized with `np.full(len(mask), d)`. -/
def scatter {α : Type} (mask : List Bool) (d : α) (v : ℕ → α) : List α :=
  scatterGo d v mask 0

/-- Model of `samples["log_prob"] += delta_log_prob_array`, elementwise float addition
(columns of a batch have equal length; `zip` makes this explicit). -/
def addLogProb (lp delta : List (FVal K)) : List (FVal K) :=
  (lp.zip delta).map (fun p => p.1.add p.2)

/-- Model of `phases = np.linspace(0, 2 * np.pi, n_grid)` (gw_samplers.py line 282). -/
def phaseGridOf (pi : K) (nGrid : ℕ) : List K := linspace 0 (2 * pi) nGrid

/-- Model of `phasor = np.exp(-2j * phases)` (line 283), i.e. `(cos 2φ, -sin 2φ)` per
grid point, with the float trig functions passed as parameters. -/
def phasorOf (cosf sinf : K → K) (pi : K) (nGrid : ℕ) : List (K × K) :=
  (phaseGridOf pi nGrid).map (fun φ => (cosf (2 * φ), -(sinf (2 * φ))))

/-- Model of `phase_log_posterior = np.outer(d_inner_h_complex, phasor).real`
(line 284): one row per within-prior sample row. -/
def phaseLogPosteriorOf {Θ : Type} (pi : K) (nGrid : ℕ) (lnProb : Θ → FVal K)
    (constraints : Θ → K) (dInnerH : Θ → K × K) (cosf sinf : K → K)
    (θs : List Θ) : List (List K) :=
  ((withinRows lnProb constraints θs).map dInnerH).map
    (fun d => (phasorOf cosf sinf pi nGrid).map (fun z => cmulRe d z))

/-- Model of `phase_posterior = np.exp(phase_log_posterior - max(phase_log_posterior))`
(line 285) AFTER the builtin `max` has produced a row `maxRow`: broadcasting
subtracts `maxRow` elementwise from every row, then `np.exp` is applied. -/
def phasePosteriorOf (expf : K → K) (plp : List (List K)) (maxRow : List K) :
    List (List K) :=
  plp.map (fun row => (row.zip maxRow).map (fun p => expf (p.1 - p.2)))

/-- Model of `GWSamplerMixin._sample_synthetic_phase` (gw_samplers.py lines 208-314).

External collaborators are parameters:
* `lnProb`, `constraints` — `self.prior.ln_prob` / `.evaluate_constraints`
  per row;
* `dInnerH` — `self.likelihood.d_inner_h_complex_multi` per row, evaluated at
  `phase = 0` (line 273 sets `theta["phase"] = 0.0` before the call), as an
  (re, im) pair;
* `cosf`, `sinf`, `expf` — the float transcendental functions, so that
  `phasor = np.exp(-2j * phases)` is `(cos (2φ), -sin (2φ))` and
  `np.exp` of the stabilized grid is `expf`;
* `kde` — `synthetic_phase_sample_and_log_prob_multi(phases, posterior)`,
  giving the sampled phase and its log-density for the j-th within-prior row.

With `inverse = True` the method is `pass` (lines 244-245).  In the forward
direction it validates the phase prior, masks rows outside the prior support,
evaluates `d_inner_h_complex` on the kept rows, builds the phase grid
`np.linspace(0, 2*np.pi, n_grid)` and the log-posterior
`np.outer(d_inner_h_complex, phasor).real`, stabilizes with
`np.exp(... - max(...))` (Python builtin `max` — see `pyMax`), samples via the
KDE, and writes the `phase` column / increments `log_prob`. -/
def sampleSyntheticPhase {Θ : Type} (pi : K) (phasePrior : PhasePrior K)
    (nGrid : ℕ) (lnProb : Θ → FVal K) (constraints : Θ → K)
    (dInnerH : Θ → K × K) (cosf sinf expf : K → K)
    (kde : List K → List (List K) → ℕ → K × FVal K)
    (inverse : Bool) (s : SynSamples Θ K) :
    Except PyErr (SynSamples Θ K) :=
  if inverse then .ok s
  else if ¬ phasePriorOk pi phasePrior then .error .valueError
  else
    match pyMax (phaseLogPosteriorOf pi nGrid lnProb constraints dInnerH
        cosf sinf s.theta) with
    | .error e => .error e
    | .ok maxRow =>
      let mask := withinMask lnProb constraints s.theta
      let phases := phaseGridOf pi nGrid
      let posterior := phasePosteriorOf expf
        (phaseLogPosteriorOf pi nGrid lnProb constraints dInnerH cosf sinf
          s.theta) maxRow
      let phaseArray := scatter mask 0 (fun j => (kde phases posterior j).1)
      let deltaLogProb :=
        scatter mask FVal.ninf (fun j => (kde phases posterior j).2)
      .ok { theta := s.theta
            phase := some phaseArray
            logProb := addLogProb s.logProb deltaLogProb }

/-- Settings dict `data_settings["gnpe_time_shifts"]` (keys read by
`GWSamplerGNPE._initialize_transforms`). -/
structure GnpeTimeSettings where
  kernel : String
  exactEquiv : Bool
deriving DecidableEq

/-- Settings dict `data_settings["gnpe_chirp"]` (keys read by
`GWSamplerGNPE._initialize_transforms`; `order` defaults to 0). -/
structure GnpeChirpSettings where
  kernel : String
  order : ℕ
deriving DecidableEq

/-- Tags for the transforms appended to `transform_pre` in
`GWSamplerGNPE._initialize_transforms` (gw_samplers.py lines 487-513). -/
inductive TransformTag where
  | renameDataToWaveform
  | gnpeCoalescenceTimes
  | timeShiftStrain
  | gnpeChirp
  | selectStandardizeRepackage
  | renameWaveformToData
deriving DecidableEq

/-- Model of `GWSamplerGNPE._initialize_transforms` (gw_samplers.py lines 466-521),
restricted to the construction of the `transform_pre` list.  The settings
are `data_settings.get("gnpe_time_shifts")` / `.get("gnpe_chirp")`: `none`
models an absent key (Python `None`; a present-but-empty dict is equally falsy
under `if not gnpe_time_settings and not gnpe_chirp_settings`).  If neither is
present, a `KeyError` is raised; this runs from `__init__`, so construction of
a `GWSamplerGNPE` fails before any sampling call. -/
def initTransformsGNPE (timeSettings : Option GnpeTimeSettings)
    (chirpSettings : Option GnpeChirpSettings) :
    Except PyErr (List TransformTag) :=
  if timeSettings.isNone ∧ chirpSettings.isNone then .error .keyError
  else
    .ok ([TransformTag.renameDataToWaveform]
      ++ (match timeSettings with
          | some _ => [TransformTag.gnpeCoalescenceTimes,
                       TransformTag.timeShiftStrain]
          | none => [])
      ++ (match chirpSettings with
          | some _ => [TransformTag.gnpeChirp]
          | none => [])
      ++ [TransformTag.selectStandardizeRepackage,
          TransformTag.renameWaveformToData])

/-- A lalsimulation/Python exception, identified by its first argument
`e.args[0]` (the string compared against the input-domain-error message). -/
structure LalExn where
  arg0 : String
deriving DecidableEq

/-- A polarization array entry: NaN or a finite complex value (re, im). -/
inductive PolEntry (K : Type) where
  | nan
  | val (re im : K)
deriving DecidableEq

/-- The waveform dictionary `{"h_plus": ..., "h_cross": ...}`. -/
structure WfDict (K : Type) where
  hPlus : List (PolEntry K)
  hCross : List (PolEntry K)
deriving DecidableEq

/-- The exception message identifying a lal input-domain error
(waveform_generator.py line 190). -/
def edomMessage : String := "Internal function call failed: Input domain error"

/-- Model of `np.ones(len(self.domain)) * np.nan` — a NaN-filled polarization. -/
def nanPolarization (lenDomain : ℕ) : List (PolEntry K) :=
  List.replicate lenDomain PolEntry.nan

/-- Model of `WaveformGenerator.generate_hplus_hcross`
(waveform_generator.py lines 114-204), modelled from the parameter conversion
onward.  `convert` is `_convert_parameters_to_lal_frame` (runs outside the
`try` block), `wfGenerator` is `generate_FD_waveform` / `generate_TD_waveform`
(the lal call, which may raise), `transform` is `self.transform`.  On an
exception: with `catchWaveformErrors = false` it re-raises; otherwise, if
`e.args[0]` equals the input-domain-error message it returns NaN-filled
polarizations of the domain's length, else it re-raises. -/
def generateHplusHcross {P Λ : Type} (lenDomain : ℕ) (convert : P → Λ)
    (wfGenerator : Λ → Except LalExn (WfDict K))
    (transform : Option (WfDict K → WfDict K))
    (parameters : P) (catchWaveformErrors : Bool) :
    Except LalExn (WfDict K) :=
  let attempt : Except LalExn (WfDict K) :=
    match wfGenerator (convert parameters) with
    | .ok w => .ok w
    | .error e =>
      if ¬ catchWaveformErrors then .error e
      else if e.arg0 = edomMessage then
        .ok ⟨nanPolarization lenDomain, nanPolarization lenDomain⟩
      else .error e
  match attempt with
  | .error e => .error e
  | .ok w =>
    match transform with
    | some f => .ok (f w)
    | none => .ok w

theorem fmod_eq_fract [FloorRing K] (x m : K) (hm : m ≠ 0) :
    fmod x m = m * Int.fract (x / m) := by
  unfold fmod Int.fract
  field_simp

theorem fmod_nonneg [FloorRing K] (x m : K) (hm : 0 < m) : 0 ≤ fmod x m := by
  rw [fmod_eq_fract x m hm.ne']
  exact mul_nonneg hm.le (Int.fract_nonneg _)

theorem fmod_lt [FloorRing K] (x m : K) (hm : 0 < m) : fmod x m < m := by
  rw [fmod_eq_fract x m hm.ne']
  calc m * Int.fract (x / m) < m * 1 :=
        mul_lt_mul_of_pos_left (Int.fract_lt_one _) hm
    _ = m := mul_one m

theorem fmod_add_fmod [FloorRing K] (x y m : K) (hm : m ≠ 0) :
    fmod (fmod x m + y) m = fmod (x + y) m := by
  unfold fmod
  have h1 : (x - m * ⌊x / m⌋ + y) / m = (x + y) / m - (⌊x / m⌋ : K) := by
    field_simp
    ring
  rw [h1]
  rw [show ((⌊x / m⌋ : K)) = ((⌊x / m⌋ : ℤ) : K) from rfl, Int.floor_sub_int]
  push_cast
  ring

theorem fmod_eq_add_int_mul [FloorRing K] (x m : K) :
    ∃ k : ℤ, fmod x m = x + k * m := by
  exact ⟨-⌊x / m⌋, by unfold fmod; push_cast; ring⟩

/-- C3: applying `_post_correct_for_tref` forward (`inverse=False`) and then
with `inverse=True`, for an event time different from the reference time,
returns every `ra` entry to its original value modulo 2π. -/
theorem c3_tref_round_trip [FloorRing K] (pi : K) (hpi : 0 < pi)
    (longitude : K → K) (tRef tEvent : K) (hne : tEvent ≠ tRef)
    (s : GWSamples K) (i : ℕ) (r r2 : K)
    (hr : s.ra.get? i = some r)
    (hr2 : (postCorrectForTref pi longitude tRef (some ⟨some tEvent⟩) true
        (postCorrectForTref pi longitude tRef (some ⟨some tEvent⟩) false
          s)).ra.get? i = some r2) :
    ∃ k : ℤ, r2 = r + k * (2 * pi) := by
  have hm : (2 : K) * pi ≠ 0 := by positivity
  simp only [postCorrectForTref, hne, if_false, List.map_map] at hr2
  rw [List.get?_map, hr] at hr2
  simp at hr2
  obtain ⟨k, hk⟩ := fmod_eq_add_int_mul r ((2 : K) * pi)
  refine ⟨k, ?_⟩
  rw [← hr2]
  rw [show fmod (r + (longitude tEvent - longitude tRef)) (2 * pi) -
      (longitude tEvent - longitude tRef) =
      fmod (r + (longitude tEvent - longitude tRef)) (2 * pi) +
      -(longitude tEvent - longitude tRef) by ring]
  rw [fmod_add_fmod _ _ _ hm]
  rw [show r + (longitude tEvent - longitude tRef) +
      -(longitude tEvent - longitude tRef) = r by ring]
  exact hk

theorem c3_witness : ∃ k : ℤ, (5 : ℚ) = 5 + k * (2 * 3) :=
  c3_tref_round_trip (K := ℚ) 3 (by norm_num) id 0 1 (by norm_num)
    ⟨[5], [], []⟩ 0 5 5 (by decide)
    (by norm_num [postCorrectForTref, fmod])

/-- C4: when the event metadata is absent, contains no event time, or the
event time equals `t_ref`, `_post_correct_for_tref` returns the samples
bit-identical (no field is written). -/
theorem c4_tref_noop [FloorRing K] (pi : K) (longitude : K → K) (tRef : K)
    (em : Option (EventMetadata K)) (inverse : Bool) (s : GWSamples K)
    (h : em = none ∨ em = some ⟨none⟩ ∨ em = some ⟨some tRef⟩) :
    postCorrectForTref pi longitude tRef em inverse s = s := by
  rcases h with h | h | h <;> subst h <;> simp [postCorrectForTref]

theorem c4_witness :
    postCorrectForTref (K := ℚ) 3 id 7 (some ⟨some 7⟩) false ⟨[5], [], []⟩ =
      ⟨[5], [], []⟩ :=
  c4_tref_noop 3 id 7 (some ⟨some 7⟩) false ⟨[5], [], []⟩ (Or.inr (Or.inr rfl))

/-- C5: when the geometric correction applies (event time present and
different from `t_ref`), the only modified field is `ra`, which becomes
`(ra ± Δλ) mod 2π` with the sign chosen by `inverse`; every other parameter
column and `log_prob` are unchanged. -/
theorem c5_tref_only_ra [FloorRing K] (pi : K) (longitude : K → K)
    (tRef tEvent : K) (hne : tEvent ≠ tRef) (inverse : Bool)
    (s : GWSamples K) :
    (postCorrectForTref pi longitude tRef (some ⟨some tEvent⟩) inverse
        s).otherColumns = s.otherColumns ∧
    (postCorrectForTref pi longitude tRef (some ⟨some tEvent⟩) inverse
        s).logProb = s.logProb ∧
    (postCorrectForTref pi longitude tRef (some ⟨some tEvent⟩) inverse
        s).ra = s.ra.map (fun r =>
          if inverse then
            fmod (r - (longitude tEvent - longitude tRef)) (2 * pi)
          else fmod (r + (longitude tEvent - longitude tRef)) (2 * pi)) := by
  simp [postCorrectForTref, hne]

theorem c5_witness :
    (postCorrectForTref (K := ℚ) 3 id 0 (some ⟨some 1⟩) false
        ⟨[5], [("dec", [2])], [FVal.fin 0]⟩).otherColumns = [("dec", [2])] ∧
    (postCorrectForTref (K := ℚ) 3 id 0 (some ⟨some 1⟩) false
        ⟨[5], [("dec", [2])], [FVal.fin 0]⟩).logProb = [FVal.fin 0] ∧
    (postCorrectForTref (K := ℚ) 3 id 0 (some ⟨some 1⟩) false
        ⟨[5], [("dec", [2])], [FVal.fin 0]⟩).ra = [5].map (fun r =>
          if false then fmod (r - (id 1 - id 0)) (2 * 3)
          else fmod (r + (id 1 - id 0)) (2 * 3)) :=
  c5_tref_only_ra 3 id 0 1 (by norm_num) false ⟨[5], [("dec", [2])], [FVal.fin 0]⟩

/-- C10: whenever the geometric correction applies, every resulting `ra`
entry lies in `[0, 2π)`, for both `inverse` settings and all input values. -/
theorem c10_ra_range [FloorRing K] (pi : K) (hpi : 0 < pi)
    (longitude : K → K) (tRef tEvent : K) (hne : tEvent ≠ tRef)
    (inverse : Bool) (s : GWSamples K) :
    ∀ r' ∈ (postCorrectForTref pi longitude tRef (some ⟨some tEvent⟩) inverse
        s).ra, 0 ≤ r' ∧ r' < 2 * pi := by
  have hm : (0 : K) < 2 * pi := by positivity
  intro r' hmem
  simp only [postCorrectForTref, hne, if_false, List.mem_map] at hmem
  obtain ⟨r, _, hr⟩ := hmem
  subst hr
  cases inverse <;>
    simp only [if_true, if_false, Bool.false_eq_true] <;>
    exact ⟨fmod_nonneg _ _ hm, fmod_lt _ _ hm⟩

theorem c10_witness : (0 : ℚ) ≤ 2 ∧ (2 : ℚ) < 2 * 3 :=
  c10_ra_range (K := ℚ) 3 (by norm_num) id 0 1 (by norm_num) false
    ⟨[-5], [], []⟩ 2 (by norm_num [postCorrectForTref, fmod])

theorem FVal.add_ninf {K' : Type} [Add K'] (a : FVal K') :
    a.add FVal.ninf = FVal.ninf := by
  cases a <;> rfl

theorem scatterGo_length {α : Type} (d : α) (v : ℕ → α) (mask : List Bool)
    (j : ℕ) : (scatterGo d v mask j).length = mask.length := by
  induction mask generalizing j with
  | nil => rfl
  | cons b rest ih => cases b <;> simp [scatterGo, ih]

theorem scatter_length {α : Type} (mask : List Bool) (d : α) (v : ℕ → α) :
    (scatter mask d v).length = mask.length :=
  scatterGo_length d v mask 0

theorem scatterGo_get?_false {α : Type} (d : α) (v : ℕ → α) (mask : List Bool)
    (j i : ℕ) (h : mask.get? i = some false) :
    (scatterGo d v mask j).get? i = some d := by
  induction mask generalizing j i with
  | nil => simp at h
  | cons b rest ih =>
    cases i with
    | zero =>
      simp only [List.get?_cons_zero, Option.some.injEq] at h
      subst h
      rfl
    | succ i =>
      have h' : rest.get? i = some false := by simpa using h
      cases b
      · simpa only [scatterGo, List.get?_cons_succ] using ih j i h'
      · simpa only [scatterGo, List.get?_cons_succ] using ih (j + 1) i h'

theorem scatter_get?_false {α : Type} (mask : List Bool) (d : α) (v : ℕ → α)
    (i : ℕ) (h : mask.get? i = some false) :
    (scatter mask d v).get? i = some d :=
  scatterGo_get?_false d v mask 0 i h

theorem addLogProb_length (lp delta : List (FVal K)) :
    (addLogProb lp delta).length = min lp.length delta.length := by
  simp [addLogProb]

theorem addLogProb_get? (lp delta : List (FVal K)) (i : ℕ) (a b : FVal K)
    (ha : lp.get? i = some a) (hb : delta.get? i = some b) :
    (addLogProb lp delta).get? i = some (a.add b) := by
  induction lp generalizing delta i with
  | nil => simp at ha
  | cons x xs ih =>
    cases delta with
    | nil => simp at hb
    | cons y ys =>
      cases i with
      | zero =>
        simp only [List.get?_cons_zero, Option.some.injEq] at ha hb
        subst ha; subst hb
        rfl
      | succ i =>
        simp only [List.get?_cons_succ] at ha hb
        simpa only [addLogProb, List.zip_cons_cons, List.map_cons,
          List.get?_cons_succ] using ih ys i ha hb

theorem withinMask_length {Θ : Type} (lnProb : Θ → FVal K)
    (constraints : Θ → K) (θs : List Θ) :
    (withinMask lnProb constraints θs).length = θs.length := by
  simp [withinMask, maskedLogPrior]

theorem withinMask_get?_false {Θ : Type} (lnProb : Θ → FVal K)
    (constraints : Θ → K) (θs : List Θ) (i : ℕ) (t : Θ)
    (ht : θs.get? i = some t)
    (h : constraints t = 0 ∨ lnProb t = FVal.ninf) :
    (withinMask lnProb constraints θs).get? i = some false := by
  unfold withinMask maskedLogPrior
  rw [List.map_map, List.get?_map, ht]
  rcases h with h | h
  · simp [h, FVal.isFin]
  · by_cases hc : constraints t = 0 <;> simp [hc, h, FVal.isFin]

/-- C2: whenever the forward `_sample_synthetic_phase` call completes, every
row whose prior constraint is 0 or whose prior log-density is `-inf` gets
`phase = 0` and a `log_prob` increment of `-inf` (its `log_prob` becomes
`-inf`), the batch row count is unchanged, and any likelihood oracle agreeing
on the within-prior rows produces the identical output (out-of-prior rows are
never passed to the likelihood). -/
theorem c2_out_of_prior_rows {Θ : Type} (pi : K) (phasePrior : PhasePrior K)
    (nGrid : ℕ) (lnProb : Θ → FVal K) (constraints : Θ → K)
    (dInnerH : Θ → K × K) (cosf sinf expf : K → K)
    (kde : List K → List (List K) → ℕ → K × FVal K)
    (s s' : SynSamples Θ K)
    (hlen : s.logProb.length = s.theta.length)
    (hrun : sampleSyntheticPhase pi phasePrior nGrid lnProb constraints
      dInnerH cosf sinf expf kde false s = .ok s') :
    s'.theta = s.theta ∧
    s'.logProb.length = s.theta.length ∧
    (∃ ph, s'.phase = some ph ∧ ph.length = s.theta.length ∧
      ∀ i t, s.theta.get? i = some t →
        (constraints t = 0 ∨ lnProb t = FVal.ninf) →
        ph.get? i = some 0 ∧ s'.logProb.get? i = some FVal.ninf) ∧
    (∀ dInnerH2 : Θ → K × K,
      (∀ t ∈ withinRows lnProb constraints s.theta, dInnerH2 t = dInnerH t) →
      sampleSyntheticPhase pi phasePrior nGrid lnProb constraints dInnerH2
        cosf sinf expf kde false s = .ok s') := by
  unfold sampleSyntheticPhase at hrun
  rw [if_neg (by simp)] at hrun
  by_cases hok : phasePriorOk pi phasePrior
  case neg => rw [if_pos (by simp [hok])] at hrun; cases hrun
  rw [if_neg (by simp [hok])] at hrun
  rcases hmax : pyMax (phaseLogPosteriorOf pi nGrid lnProb constraints
      dInnerH cosf sinf s.theta) with e | maxRow
  · rw [hmax] at hrun; cases hrun
  rw [hmax] at hrun
  simp only [Except.ok.injEq] at hrun
  subst hrun
  refine ⟨rfl, ?_, ⟨_, rfl, ?_, ?_⟩, ?_⟩
  · rw [addLogProb_length, scatter_length, withinMask_length, hlen,
      min_self]
  · rw [scatter_length, withinMask_length]
  · intro i t ht hout
    have hmask := withinMask_get?_false lnProb constraints s.theta i t ht hout
    have hi : i < s.theta.length := (List.get?_eq_some.mp ht).1
    have hlp : ∃ a, s.logProb.get? i = some a :=
      ⟨s.logProb.get ⟨i, hlen ▸ hi⟩, List.get?_eq_get _⟩
    obtain ⟨a, ha⟩ := hlp
    refine ⟨scatter_get?_false _ _ _ i hmask, ?_⟩
    have hd := scatter_get?_false (withinMask lnProb constraints s.theta)
      FVal.ninf (fun j => (kde (phaseGridOf pi nGrid)
        (phasePosteriorOf expf (phaseLogPosteriorOf pi nGrid lnProb
          constraints dInnerH cosf sinf s.theta) maxRow) j).2) i hmask
    rw [addLogProb_get? s.logProb _ i a FVal.ninf ha hd, FVal.add_ninf]
  · intro d2 hagree
    have hsame : phaseLogPosteriorOf pi nGrid lnProb constraints d2
        cosf sinf s.theta = phaseLogPosteriorOf pi nGrid lnProb constraints
        dInnerH cosf sinf s.theta := by
      unfold phaseLogPosteriorOf
      rw [List.map_congr_left hagree]
    unfold sampleSyntheticPhase
    rw [if_neg (by simp), if_neg (by simp [hok]), hsame, hmax]

/-- C9: `_sample_synthetic_phase` with `inverse=True` is `pass`: the samples
are returned completely unchanged (no phase column is touched, `log_prob` is
not modified). -/
theorem c9_inverse_noop {Θ : Type} (pi : K) (phasePrior : PhasePrior K)
    (nGrid : ℕ) (lnProb : Θ → FVal K) (constraints : Θ → K)
    (dInnerH : Θ → K × K) (cosf sinf expf : K → K)
    (kde : List K → List (List K) → ℕ → K × FVal K) (s : SynSamples Θ K) :
    sampleSyntheticPhase pi phasePrior nGrid lnProb constraints dInnerH
      cosf sinf expf kde true s = .ok s := rfl

/-- C6: in the forward direction, if the stored phase prior is not a Uniform
distribution with minimum 0 and maximum 2π, `_sample_synthetic_phase` raises
`ValueError`.  The check is the first statement of the forward branch; the
returned error is the same for every likelihood/prior/KDE oracle and the
samples are not part of the result, so nothing is modified and the likelihood
is never consulted. -/
theorem c6_phase_prior_check {Θ : Type} (pi : K) (phasePrior : PhasePrior K)
    (nGrid : ℕ) (lnProb : Θ → FVal K) (constraints : Θ → K)
    (dInnerH : Θ → K × K) (cosf sinf expf : K → K)
    (kde : List K → List (List K) → ℕ → K × FVal K) (s : SynSamples Θ K)
    (h : phasePrior ≠ PhasePrior.uniform 0 (2 * pi)) :
    sampleSyntheticPhase pi phasePrior nGrid lnProb constraints dInnerH
      cosf sinf expf kde false s = .error .valueError := by
  have hok : phasePriorOk pi phasePrior = false := by
    cases phasePrior with
    | uniform mn mx =>
      by_contra hcon
      rw [Bool.not_eq_false, phasePriorOk, Bool.and_eq_true, decide_eq_true_iff,
        decide_eq_true_iff] at hcon
      exact h (by rw [hcon.1, hcon.2])
    | other => rfl
  unfold sampleSyntheticPhase
  rw [if_neg (by simp), if_pos (by simp [hok])]

theorem c6_witness :
    sampleSyntheticPhase (K := ℚ) (Θ := ℕ) 3 PhasePrior.other 4
      (fun _ => FVal.fin 0) (fun _ => 1) (fun _ => (1, 0)) id id id
      (fun _ _ _ => (0, FVal.fin 0)) false ⟨[0], none, [FVal.fin 0]⟩ =
      .error .valueError :=
  c6_phase_prior_check 3 PhasePrior.other 4 (fun _ => FVal.fin 0) (fun _ => 1)
    (fun _ => (1, 0)) id id id (fun _ _ _ => (0, FVal.fin 0))
    ⟨[0], none, [FVal.fin 0]⟩ (by decide)

theorem c2_witness :
    (⟨[0, 1], some [0, 1/2], [FVal.ninf, FVal.fin 6]⟩ : SynSamples ℕ ℚ).theta
      = [0, 1] :=
  (c2_out_of_prior_rows (K := ℚ) (Θ := ℕ) 3 (PhasePrior.uniform 0 (2 * 3)) 2
    (fun _ => FVal.fin 0) (fun t => if t = 0 then 0 else 1) (fun _ => (1, 0))
    id id id (fun _ _ _ => (1/2, FVal.fin 1))
    ⟨[0, 1], none, [FVal.fin 5, FVal.fin 5]⟩
    ⟨[0, 1], some [0, 1/2], [FVal.ninf, FVal.fin 6]⟩ rfl (by
      norm_num [sampleSyntheticPhase, phasePriorOk, phaseLogPosteriorOf,
        withinRows, selectRows, withinMask, maskedLogPrior, phasorOf,
        phaseGridOf, linspace, List.range_succ, pyMax, pyMaxGo, npTruthy,
        listGT, cmulRe, phasePosteriorOf, scatter, scatterGo, addLogProb,
        FVal.add, FVal.isFin, List.filterMap_cons, List.replicate_succ])).1

/-- C1: the claim fails on the code, in two ways.  (1) The phase grid is
`np.linspace(0, 2*np.pi, n_grid)`, which INCLUDES the right endpoint 2π
(here with `pi = 3`: `linspace 0 6 3 = [0, 3, 6]`), so the grid is over the
closed interval `[0, 2π]`, not the half-open `[0, 2π)`.  (2) The
stabilization `np.exp(phase_log_posterior - max(phase_log_posterior))` uses
Python's BUILTIN `max` on a 2-D array: with two or more within-prior rows the
row comparison raises `ValueError` (shown both for `pyMax` directly and for
the full forward call on a two-row within-prior batch), and with exactly one
within-prior row `max` returns that very row, so the subtraction flattens the
density to a constant instead of subtracting the row's scalar maximum. -/
theorem c1_phase_grid_and_stabilization_bug :
    linspace (0 : ℚ) (2 * 3) 3 = [0, 3, 6] ∧
    pyMax ([[0, 0], [0, 0]] : List (List ℚ)) = .error .valueError ∧
    sampleSyntheticPhase (K := ℚ) (Θ := ℕ) 3 (PhasePrior.uniform 0 (2 * 3)) 2
      (fun _ => FVal.fin 0) (fun _ => 1) (fun _ => (1, 0)) id id id
      (fun _ _ _ => (0, FVal.fin 0)) false
      ⟨[0, 1], none, [FVal.fin 0, FVal.fin 0]⟩ = .error .valueError ∧
    pyMax ([[0, 12]] : List (List ℚ)) = .ok [0, 12] := by
  refine ⟨?_, ?_, ?_, ?_⟩
  · norm_num [linspace, List.range_succ]
  · norm_num [pyMax, pyMaxGo, npTruthy, listGT]
  · norm_num [sampleSyntheticPhase, phasePriorOk, phaseLogPosteriorOf,
      withinRows, selectRows, withinMask, maskedLogPrior, phasorOf,
      phaseGridOf, linspace, List.range_succ, pyMax, pyMaxGo, npTruthy,
      listGT, cmulRe, FVal.isFin, List.filterMap_cons, List.replicate_succ]
  · norm_num [pyMax, pyMaxGo]

/-- C7: `GWSamplerGNPE._initialize_transforms` (called from `__init__`, hence
during construction, before any sampling) raises a `KeyError` when the model
metadata contains neither a `gnpe_time_shifts` nor a `gnpe_chirp` entry. -/
theorem c7_gnpe_settings_required :
    initTransformsGNPE none none = .error .keyError := rfl

/-- C8: if the lal waveform evaluation raises, `generate_hplus_hcross`
re-raises it when `catch_waveform_errors=False`; with
`catch_waveform_errors=True` and an input-domain error it returns NaN-filled
`h_plus`/`h_cross` of the domain's length (the row becomes a NaN placeholder
of full length rather than being dropped). -/
theorem c8_waveform_error_policy {P Λ : Type} (lenDomain : ℕ)
    (convert : P → Λ) (wfGenerator : Λ → Except LalExn (WfDict K))
    (transform : Option (WfDict K → WfDict K)) (p : P) (e : LalExn)
    (hfail : wfGenerator (convert p) = .error e) :
    generateHplusHcross lenDomain convert wfGenerator transform p false =
      .error e ∧
    (e.arg0 = edomMessage →
      generateHplusHcross lenDomain convert wfGenerator none p true =
        .ok ⟨nanPolarization lenDomain, nanPolarization lenDomain⟩) := by
  constructor
  · unfold generateHplusHcross
    rw [hfail]
    simp
  · intro hE
    unfold generateHplusHcross
    rw [hfail]
    simp [hE]

theorem c8_witness :
    generateHplusHcross (K := ℚ) 2 (id : ℕ → ℕ)
      (fun _ => .error ⟨edomMessage⟩) none 0 true =
      .ok ⟨nanPolarization 2, nanPolarization 2⟩ :=
  (c8_waveform_error_policy 2 id (fun _ => .error ⟨edomMessage⟩) none 0
    ⟨edomMessage⟩ rfl).2 rfl

end Dingo
